import Mathlib

/-!
Verification development for the StoryBoarder repository.

The TypeScript sources are shallowly embedded: strings are `List Char`,
JS `undefined`/`null` become `Option`, functions that may `throw` return
`Except`, and the external vendor HTTP calls (Google GenAI, Supabase,
`fetch`) are abstracted as explicit oracle parameters describing the
outcome of the call.  All embedded definitions are computable so that
concrete runs can be evaluated inside proofs.
-/

namespace StoryBoarder

/-! ## Shared helpers for the JS embedding -/

/-- Characters matched by the character class of the regex
`/[.。!！?？\n]+/` used by the `breakdownStory` fallback split
(geminiService.ts line 50). -/
def termChar (c : Char) : Bool :=
  c = '.' || c = '。' || c = '!' || c = '！' || c = '?' || c = '？' || c = '\n'

/-- Whitespace recognised by JS `String.prototype.trim` (restricted to the
ASCII whitespace that can actually appear in the split pieces; the split
already removes `\n`). -/
def wsChar (c : Char) : Bool :=
  c = ' ' || c = '\t' || c = '\n' || c = '\r' || c = '\x0b' || c = '\x0c'

/-- Model of JS `String.prototype.trim`: drop leading and trailing
whitespace. -/
def jsTrim (s : List Char) : List Char :=
  ((s.dropWhile wsChar).reverse.dropWhile wsChar).reverse

mutual

/-- Accumulating worker for the run-splitting of JS
`str.split(/[c…]+/)`: `splitGo p s acc` scans `s`, building the current
piece in `acc` (reversed); a separator character closes the current piece
and switches to `splitSep`, which skips the rest of the separator run. -/
def splitGo (p : Char → Bool) : List Char → List Char → List (List Char)
  | [], acc => [acc.reverse]
  | c :: cs, acc =>
    if p c then acc.reverse :: splitSep p cs else splitGo p cs (c :: acc)

/-- Worker for `splitRuns` while inside a maximal separator run. -/
def splitSep (p : Char → Bool) : List Char → List (List Char)
  | [] => [[]]
  | c :: cs => if p c then splitSep p cs else splitGo p cs [c]

end

/-- Model of JS `str.split(re)` where `re` is a one-character-class regex
with `+`: the string is split on maximal runs of characters satisfying
`p`; a leading (resp. trailing) run contributes an empty first (resp.
last) piece, exactly as in JS.  E.g. `"a..b" ↦ ["a","b"]`,
`"a." ↦ ["a",""]`, `"" ↦ [""]`. -/
def splitRuns (p : Char → Bool) (s : List Char) : List (List Char) :=
  splitGo p s []

/-- Embedding of the fallback branch of `breakdownStory`
(geminiService.ts lines 50–54): split the story text on sentence
terminators, keep pieces whose trimmed length exceeds 5, take at most 6,
and return the trimmed descriptions.  (The `id` fields are wall-clock
timestamps and carry no information, so only the descriptions are
modelled.) -/
def fallbackScenes (storyText : List Char) : List (List Char) :=
  ((((splitRuns termChar storyText).filter
      (fun s => 5 < (jsTrim s).length)).take 6).map jsTrim)

/-! ### Lemmas about `jsTrim` and `splitRuns` -/

theorem head?_dropWhile_not {p : Char → Bool} :
    ∀ {l : List Char} {c : Char}, (l.dropWhile p).head? = some c → p c = false := by
  intro l
  induction l with
  | nil => intro c h; simp [List.dropWhile] at h
  | cons a t ih =>
    intro c h
    by_cases hp : p a
    · rw [List.dropWhile_cons, if_pos hp] at h
      exact ih h
    · rw [List.dropWhile_cons, if_neg hp] at h
      simp only [List.head?_cons, Option.some.injEq] at h
      subst h
      exact Bool.of_not_eq_true hp

theorem dropWhile_dropWhile (p : Char → Bool) (l : List Char) :
    (l.dropWhile p).dropWhile p = l.dropWhile p := by
  cases h : l.dropWhile p with
  | nil => simp
  | cons c t =>
    have hc : p c = false := head?_dropWhile_not (by rw [h]; rfl)
    rw [List.dropWhile_cons, if_neg (by simp [hc])]

theorem dropWhile_of_head {p : Char → Bool} {l : List Char}
    (h : ∀ c, l.head? = some c → p c = false) : l.dropWhile p = l := by
  cases l with
  | nil => simp
  | cons c t =>
    have := h c rfl
    rw [List.dropWhile_cons, if_neg (by simp [this])]

/-- A prefix of a list whose head fails `p` still has a head failing `p`. -/
theorem head?_of_isPrefix {l₁ l₂ : List Char} (hp : l₁ <+: l₂) (hne : l₁ ≠ []) :
    l₁.head? = l₂.head? := by
  obtain ⟨r, hr⟩ := hp
  cases l₁ with
  | nil => exact absurd rfl hne
  | cons a t => rw [← hr]; rfl

theorem jsTrim_idem (s : List Char) : jsTrim (jsTrim s) = jsTrim s := by
  unfold jsTrim
  set y := s.dropWhile wsChar with hy
  have hyhead : ∀ c, y.head? = some c → wsChar c = false := fun c hc =>
    head?_dropWhile_not (by rw [← hy]; exact hc)
  set z := (y.reverse.dropWhile wsChar).reverse with hz
  -- `z` is a prefix of `y`, hence its head also fails `wsChar`
  have hzpre : z <+: y := by
    have hrs : z.reverse <:+ y.reverse := by
      rw [hz, List.reverse_reverse]
      exact List.dropWhile_suffix _
    exact List.reverse_suffix.mp hrs
  have hzdrop : z.dropWhile wsChar = z := by
    apply dropWhile_of_head
    intro c hc
    have hzne : z ≠ [] := by
      intro h0; rw [h0] at hc; simp at hc
    have := head?_of_isPrefix hzpre hzne
    exact hyhead c (this ▸ hc)
  rw [hzdrop, hz, List.reverse_reverse, dropWhile_dropWhile]

theorem splitGo_length_le (p : Char → Bool) :
    ∀ (s : List Char),
      (∀ acc, (splitGo p s acc).length ≤ s.countP p + 1) ∧
      (splitSep p s).length ≤ s.countP p + 1 := by
  intro s
  induction s with
  | nil => constructor <;> simp [splitGo, splitSep]
  | cons c cs ih =>
    constructor
    · intro acc
      by_cases hc : p c
      · rw [splitGo, if_pos hc]
        simp only [List.length_cons, List.countP_cons, hc, if_pos]
        have := ih.2
        omega
      · rw [splitGo, if_neg hc]
        have := ih.1 (c :: acc)
        simp only [List.countP_cons, hc]
        simpa using this
    · by_cases hc : p c
      · rw [splitSep, if_pos hc]
        have := ih.2
        simp only [List.countP_cons, hc]
        omega
      · rw [splitSep, if_neg hc]
        have := ih.1 [c]
        simp only [List.countP_cons, hc]
        simpa using this

/-- C3 (part proved): the naive fallback split yields at most 6 scenes,
every description is already trimmed and longer than 5 characters, and
the number of scenes is at most one more than the number of
sentence-terminator characters in the input. -/
theorem fallbackScenes_spec (storyText : List Char) :
    (fallbackScenes storyText).length ≤ 6 ∧
    (∀ d ∈ fallbackScenes storyText, jsTrim d = d ∧ 5 < d.length) ∧
    (fallbackScenes storyText).length ≤ storyText.countP termChar + 1 := by
  refine ⟨?_, ?_, ?_⟩
  · unfold fallbackScenes
    rw [List.length_map]
    have := List.length_take 6
      ((splitRuns termChar storyText).filter (fun s => 5 < (jsTrim s).length))
    omega
  · intro d hd
    unfold fallbackScenes at hd
    obtain ⟨t, ht, rfl⟩ := List.mem_map.mp hd
    have ht' := List.mem_of_mem_take ht
    have := (List.mem_filter.mp ht').2
    simp only [decide_eq_true_eq] at this
    exact ⟨jsTrim_idem t, this⟩
  · unfold fallbackScenes
    rw [List.length_map]
    have h1 : ((((splitRuns termChar storyText).filter
          (fun s => 5 < (jsTrim s).length))).take 6).length ≤
        (((splitRuns termChar storyText).filter
          (fun s => 5 < (jsTrim s).length))).length :=
      (List.take_sublist _ _).length_le
    have h2 := List.length_filter_le (fun s => 5 < (jsTrim s).length)
      (splitRuns termChar storyText)
    have h3 := (splitGo_length_le termChar storyText).1 []
    unfold splitRuns at *
    omega

/-! ## Scene data model and the wizard generation handlers -/

/-- The `Scene` record (types.ts / spec section 3): one narrative beat
mapped to one panel.  `imageUrl` and `error` are `Option`s because in the
source they are `undefined`/`null` when absent. -/
structure Scene where
  id : List Char
  description : List Char
  imageUrl : Option (List Char) := none
  isGenerating : Bool := false
  error : Option (List Char) := none
  deriving Repr, DecidableEq

/-- Observable image-generation call events, used to express the temporal
claims: `callStart i` is the moment `generateImageFromPrompt` is invoked
for scene `i`, `callEnd i` the moment that call settles (fulfilled or
rejected). -/
inductive Event where
  | callStart (i : Nat)
  | callEnd (i : Nat)
  deriving Repr, DecidableEq

/-- In-place update of one array slot, as in
`const updated = [...prev]; updated[i] = f(updated[i])`.
Out-of-range indices leave the list unchanged. -/
def updateAt (l : List Scene) (i : Nat) (f : Scene → Scene) : List Scene :=
  match l[i]? with
  | some s => l.set i (f s)
  | none => l

/-- Error message stored on a scene when a batch-generation call fails
(App, `handleGenerate` catch branch). -/
def genFailMsg : List Char := "Generation failed. Please try again.".toList

/-- Error message stored on a scene when a single-scene regeneration call
fails (App, `handleRegenerateSingle` catch branch). -/
def regenFailMsg : List Char := "Failed to regenerate".toList

/-- Scene preparation performed at the top of `handleGenerate`:
`{...s, imageUrl: undefined, isGenerating: true, error: null}`. -/
def resetScene (s : Scene) : Scene :=
  { s with imageUrl := none, isGenerating := true, error := none }

/-- One iteration of the sequential generation loop of `handleGenerate`
(body of `for (let i = 0; ...)`): mark scene `i` generating, await the
generation call (whose outcome per index is the oracle `gen`), then record
either the image or the failure, and finally clear `isGenerating`.  The
trace accumulates the start/end of the awaited call. -/
def genIter (gen : Nat → Except Unit (List Char))
    (acc : List Scene × List Event) (i : Nat) : List Scene × List Event :=
  let marked := updateAt acc.1 i (fun s => { s with isGenerating := true })
  match gen i with
  | .ok url =>
    (updateAt marked i
        (fun s => { s with imageUrl := some url, isGenerating := false }),
      acc.2 ++ [.callStart i, .callEnd i])
  | .error _ =>
    (updateAt marked i
        (fun s => { s with imageUrl := none, error := some genFailMsg,
                           isGenerating := false }),
      acc.2 ++ [.callStart i, .callEnd i])

/-- Embedding of `handleGenerate` (App, lines 553–660 of the bundled
source): reset every scene, then run the strictly sequential per-scene
generation loop.  `gen i` abstracts the outcome of the awaited
`generateImageFromPrompt` call for scene `i` (the prompt text and the
intermediate `setScenes` renders do not affect the final scene list).
Returns the final scene list together with the call-event trace. -/
def handleGenerate (scenes : List Scene)
    (gen : Nat → Except Unit (List Char)) : List Scene × List Event :=
  let reset := scenes.map resetScene
  (List.range reset.length).foldl (genIter gen) (reset, [])

/-- Net effect of `handleGenerate` on the scene originally stored at an
index whose generation call has the given outcome. -/
def finalScene (gen : Nat → Except Unit (List Char)) (i : Nat)
    (s : Scene) : Scene :=
  match gen i with
  | .ok url => { s with imageUrl := some url, isGenerating := false,
                        error := none }
  | .error _ => { s with imageUrl := none, isGenerating := false,
                         error := some genFailMsg }

/-- Embedding of `handleRegenerateSingle` (App, lines 457–551): guard
against a missing or already-generating scene, otherwise mark the scene
generating, await one generation call (outcome `gen`), and record either
the new image or the failure.  Returns the new scene list and the
generation-call events issued. -/
def handleRegenerateSingle (scenes : List Scene) (index : Nat)
    (gen : Except Unit (List Char)) : List Scene × List Event :=
  match scenes[index]? with
  | none => (scenes, [])
  | some sceneToRegen =>
    if sceneToRegen.isGenerating then (scenes, [])
    else
      match gen with
      | .ok url =>
        (updateAt (updateAt scenes index
            (fun s => { s with isGenerating := true, error := none })) index
            (fun s => { s with imageUrl := some url, isGenerating := false }),
          [.callStart index, .callEnd index])
      | .error _ =>
        (updateAt (updateAt scenes index
            (fun s => { s with isGenerating := true, error := none })) index
            (fun s => { s with error := some regenFailMsg,
                               isGenerating := false }),
          [.callStart index, .callEnd index])

/-! ### Lemmas about `updateAt` and the generation loop -/

theorem updateAt_length (l : List Scene) (i : Nat) (f : Scene → Scene) :
    (updateAt l i f).length = l.length := by
  unfold updateAt
  cases h : l[i]? with
  | none => rfl
  | some s => simp [List.length_set]

theorem updateAt_getElem?_ne (l : List Scene) (i j : Nat) (f : Scene → Scene)
    (h : j ≠ i) : (updateAt l i f)[j]? = l[j]? := by
  unfold updateAt
  cases hi : l[i]? with
  | none => rfl
  | some s => rw [List.getElem?_set_ne (fun he => h he.symm)]

theorem updateAt_getElem?_self (l : List Scene) (i : Nat) (f : Scene → Scene) :
    (updateAt l i f)[i]? = Option.map f l[i]? := by
  unfold updateAt
  cases hi : l[i]? with
  | none => rw [hi]; rfl
  | some s =>
    have hlt : i < l.length := by
      by_contra hge
      rw [List.getElem?_eq_none (by omega)] at hi
      exact Option.noConfusion hi
    rw [List.getElem?_set_self hlt]
    rfl

/-- Net effect of one loop iteration of `handleGenerate` on the scene
currently stored at the processed index (the `error` field is only
written on failure; on success it keeps its current value). -/
def stepScene (gen : Nat → Except Unit (List Char)) (i : Nat)
    (s : Scene) : Scene :=
  match gen i with
  | .ok url => { s with imageUrl := some url, isGenerating := false }
  | .error _ => { s with imageUrl := none, error := some genFailMsg,
                         isGenerating := false }

/-- State of the generation loop after processing the first `m` indices. -/
def genLoopState (gen : Nat → Except Unit (List Char))
    (init : List Scene) (m : Nat) : List Scene × List Event :=
  (List.range m).foldl (genIter gen) (init, [])

/-- The canonical strictly-serial trace: start then end for each index in
order, starting at index `a`. -/
def serialTrace (a m : Nat) : List Event :=
  (List.range' a m).map (fun i => [Event.callStart i, Event.callEnd i]) |>.flatten

theorem genIter_fst_getElem? (gen : Nat → Except Unit (List Char))
    (st : List Scene × List Event) (m j : Nat) :
    (genIter gen st m).1[j]? =
      if j = m then Option.map (stepScene gen m) st.1[m]? else st.1[j]? := by
  unfold genIter stepScene
  cases hg : gen m with
  | ok url =>
    by_cases hj : j = m
    · subst hj
      simp only [if_pos rfl]
      rw [updateAt_getElem?_self, updateAt_getElem?_self, Option.map_map]
      rfl
    · simp only [if_neg hj]
      rw [updateAt_getElem?_ne _ _ _ _ hj, updateAt_getElem?_ne _ _ _ _ hj]
  | error e =>
    by_cases hj : j = m
    · subst hj
      simp only [if_pos rfl]
      rw [updateAt_getElem?_self, updateAt_getElem?_self, Option.map_map]
      rfl
    · simp only [if_neg hj]
      rw [updateAt_getElem?_ne _ _ _ _ hj, updateAt_getElem?_ne _ _ _ _ hj]

theorem genIter_fst_length (gen : Nat → Except Unit (List Char))
    (st : List Scene × List Event) (m : Nat) :
    (genIter gen st m).1.length = st.1.length := by
  unfold genIter
  cases gen m <;> simp [updateAt_length]

theorem genIter_snd (gen : Nat → Except Unit (List Char))
    (st : List Scene × List Event) (m : Nat) :
    (genIter gen st m).2 = st.2 ++ [.callStart m, .callEnd m] := by
  unfold genIter
  cases gen m <;> rfl

theorem genLoopState_invariant (gen : Nat → Except Unit (List Char))
    (init : List Scene) (m : Nat) :
    (genLoopState gen init m).1.length = init.length ∧
    (∀ j, (genLoopState gen init m).1[j]? =
      if j < m then Option.map (stepScene gen j) init[j]? else init[j]?) ∧
    (genLoopState gen init m).2 = serialTrace 0 m := by
  induction m with
  | zero =>
    refine ⟨rfl, ?_, rfl⟩
    intro j
    simp [genLoopState]
  | succ m ih =>
    obtain ⟨ihlen, ihget, ihtr⟩ := ih
    have hstep : genLoopState gen init (m + 1) =
        genIter gen (genLoopState gen init m) m := by
      unfold genLoopState
      rw [List.range_succ, List.foldl_append]
      rfl
    refine ⟨?_, ?_, ?_⟩
    · rw [hstep, genIter_fst_length]
      exact ihlen
    · intro j
      rw [hstep, genIter_fst_getElem?]
      by_cases hj : j = m
      · subst hj
        rw [if_pos rfl, if_pos (Nat.lt_succ_self j), ihget j,
          if_neg (Nat.lt_irrefl j)]
      · rw [if_neg hj, ihget j]
        by_cases hjm : j < m
        · rw [if_pos hjm, if_pos (Nat.lt_succ_of_lt hjm)]
        · rw [if_neg hjm, if_neg (by omega)]
    · rw [hstep, genIter_snd, ihtr]
      unfold serialTrace
      rw [List.range'_concat]
      simp

/-- Net per-index characterisation of `handleGenerate` on the original
scene list. -/
theorem handleGenerate_getElem? (scenes : List Scene)
    (gen : Nat → Except Unit (List Char)) (j : Nat) :
    (handleGenerate scenes gen).1[j]? =
      Option.map (finalScene gen j) scenes[j]? := by
  have hinv := genLoopState_invariant gen (scenes.map resetScene)
    (scenes.map resetScene).length
  have hget := hinv.2.1 j
  have heq : (handleGenerate scenes gen).1 =
      (genLoopState gen (scenes.map resetScene)
        (scenes.map resetScene).length).1 := rfl
  rw [heq, hget]
  by_cases hj : j < (scenes.map resetScene).length
  · rw [if_pos hj, List.getElem?_map, Option.map_map]
    rfl
  · rw [if_neg hj]
    have hj' : scenes.length ≤ j := by
      rw [List.length_map] at hj; omega
    have h1 : (List.map resetScene scenes)[j]? = (none : Option Scene) :=
      List.getElem?_eq_none (by simpa using hj')
    have h2 : scenes[j]? = (none : Option Scene) := List.getElem?_eq_none hj'
    rw [h1, h2]
    rfl

theorem handleGenerate_length (scenes : List Scene)
    (gen : Nat → Except Unit (List Char)) :
    (handleGenerate scenes gen).1.length = scenes.length := by
  have hinv := genLoopState_invariant gen (scenes.map resetScene)
    (scenes.map resetScene).length
  have heq : (handleGenerate scenes gen).1 =
      (genLoopState gen (scenes.map resetScene)
        (scenes.map resetScene).length).1 := rfl
  rw [heq, hinv.1, List.length_map]

theorem handleGenerate_trace (scenes : List Scene)
    (gen : Nat → Except Unit (List Char)) :
    (handleGenerate scenes gen).2 = serialTrace 0 scenes.length := by
  have hinv := genLoopState_invariant gen (scenes.map resetScene)
    (scenes.map resetScene).length
  have heq : (handleGenerate scenes gen).2 =
      (genLoopState gen (scenes.map resetScene)
        (scenes.map resetScene).length).2 := rfl
  rw [heq, hinv.2.2, List.length_map]

/-! ### Trace lemmas for the serial generation loop -/

/-- Scene indices of the `callStart` events of a trace, in order. -/
def startsOf (tr : List Event) : List Nat :=
  tr.filterMap (fun e => match e with | .callStart i => some i | _ => none)

def isStartEv : Event → Bool
  | .callStart _ => true
  | .callEnd _ => false

def isEndEv : Event → Bool
  | .callStart _ => false
  | .callEnd _ => true

theorem serialTrace_succ (a m : Nat) :
    serialTrace a (m + 1) =
      .callStart a :: .callEnd a :: serialTrace (a + 1) m := by
  unfold serialTrace
  rw [List.range'_succ]
  simp

theorem startsOf_serialTrace : ∀ (m a : Nat),
    startsOf (serialTrace a m) = List.range' a m := by
  intro m
  induction m with
  | zero => intro a; rfl
  | succ m ih =>
    intro a
    rw [serialTrace_succ, List.range'_succ]
    unfold startsOf at *
    simp only [List.filterMap_cons]
    rw [ih]

theorem serialTrace_inflight : ∀ (m a k : Nat),
    (List.countP isStartEv ((serialTrace a m).take k)) ≤
      (List.countP isEndEv ((serialTrace a m).take k)) + 1 := by
  intro m
  induction m with
  | zero => intro a k; unfold serialTrace; simp
  | succ m ih =>
    intro a k
    rw [serialTrace_succ]
    match k with
    | 0 => simp
    | 1 => simp [List.countP_cons, isStartEv, isEndEv]
    | k + 2 =>
      have := ih (a + 1) k
      simp only [List.take_succ_cons, List.countP_cons, isStartEv, isEndEv,
        if_true, if_false, reduceIte]
      omega

theorem serialTrace_start_pos : ∀ (m a p j : Nat),
    (serialTrace a m)[p]? = some (.callStart j) → a ≤ j ∧ p = 2 * (j - a) := by
  intro m
  induction m with
  | zero => intro a p j h; unfold serialTrace at h; simp at h
  | succ m ih =>
    intro a p j h
    rw [serialTrace_succ] at h
    match p with
    | 0 =>
      simp only [List.getElem?_cons_zero, Option.some.injEq] at h
      cases h
      omega
    | 1 => simp at h
    | p + 2 =>
      simp only [List.getElem?_cons_succ] at h
      obtain ⟨h1, h2⟩ := ih (a + 1) p j h
      omega

theorem serialTrace_end_pos : ∀ (m a q i : Nat),
    (serialTrace a m)[q]? = some (.callEnd i) → a ≤ i ∧ q = 2 * (i - a) + 1 := by
  intro m
  induction m with
  | zero => intro a q i h; unfold serialTrace at h; simp at h
  | succ m ih =>
    intro a q i h
    rw [serialTrace_succ] at h
    match q with
    | 0 => simp at h
    | 1 =>
      simp only [List.getElem?_cons_succ, List.getElem?_cons_zero,
        Option.some.injEq] at h
      cases h
      omega
    | q + 2 =>
      simp only [List.getElem?_cons_succ] at h
      obtain ⟨h1, h2⟩ := ih (a + 1) q i h
      omega

/-! ### Claim theorems for the wizard generation handlers -/

/-- C1: in a batch run of `handleGenerate`, every scene is processed (the
resulting list has the same length, no abort), a scene whose generation
call failed ends with the error message and no image, and every scene
whose call succeeded ends carrying its generated image — each index is
affected only by the outcome of its own call, as described pointwise by
`finalScene`. -/
theorem handleGenerate_scopes_failures_per_scene (scenes : List Scene)
    (gen : Nat → Except Unit (List Char)) :
    (handleGenerate scenes gen).1.length = scenes.length ∧
    ∀ j, (handleGenerate scenes gen).1[j]? =
        Option.map (finalScene gen j) scenes[j]? :=
  ⟨handleGenerate_length scenes gen, handleGenerate_getElem? scenes gen⟩

/-- C6: during one `handleGenerate` run the generation calls are issued
strictly in scene-array order (the started indices are exactly
`0, 1, …, n-1` in order), at most one call is in flight in any prefix of
the trace, and the call for scene `i+1` never starts before the call for
scene `i` has ended. -/
theorem handleGenerate_serial_order (scenes : List Scene)
    (gen : Nat → Except Unit (List Char)) :
    startsOf (handleGenerate scenes gen).2 = List.range scenes.length ∧
    (∀ k, List.countP isStartEv (((handleGenerate scenes gen).2).take k) ≤
      List.countP isEndEv (((handleGenerate scenes gen).2).take k) + 1) ∧
    (∀ (i p q : Nat),
      ((handleGenerate scenes gen).2)[p]? = some (Event.callStart (i + 1)) →
      ((handleGenerate scenes gen).2)[q]? = some (Event.callEnd i) → q < p) := by
  rw [handleGenerate_trace]
  refine ⟨?_, ?_, ?_⟩
  · rw [startsOf_serialTrace, List.range_eq_range']
  · intro k
    exact serialTrace_inflight scenes.length 0 k
  · intro i p q hp hq
    obtain ⟨-, hp2⟩ := serialTrace_start_pos scenes.length 0 p (i + 1) hp
    obtain ⟨-, hq2⟩ := serialTrace_end_pos scenes.length 0 q i hq
    omega

/-- Closed witness for `handleGenerate_serial_order`: on a concrete
3-scene run, the end of call 0 (trace position 1) precedes the start of
call 1 (trace position 2). -/
theorem handleGenerate_serial_order_witness :
    startsOf (handleGenerate
        [⟨"1".toList, "a".toList, none, false, none⟩,
         ⟨"2".toList, "b".toList, none, false, none⟩,
         ⟨"3".toList, "c".toList, none, false, none⟩]
        (fun i => if i = 1 then .error () else .ok "img".toList)).2 =
      List.range 3 ∧ (1 : Nat) < 2 := by
  constructor
  · exact (handleGenerate_serial_order _ _).1
  · exact (handleGenerate_serial_order
      [⟨"1".toList, "a".toList, none, false, none⟩,
       ⟨"2".toList, "b".toList, none, false, none⟩,
       ⟨"3".toList, "c".toList, none, false, none⟩]
      (fun i => if i = 1 then .error () else .ok "img".toList)).2.2 0 2 1
      (by decide) (by decide)

theorem handleRegenerateSingle_getElem?_ne (scenes : List Scene) (index : Nat)
    (gen : Except Unit (List Char)) (j : Nat) (h : j ≠ index) :
    (handleRegenerateSingle scenes index gen).1[j]? = scenes[j]? := by
  cases hi : scenes[index]? with
  | none => simp only [handleRegenerateSingle, hi]
  | some sc =>
    by_cases hgen : sc.isGenerating
    · simp only [handleRegenerateSingle, hi, hgen, if_true]
    · rw [Bool.not_eq_true] at hgen
      cases gen with
      | ok url =>
        simp only [handleRegenerateSingle, hi, hgen, Bool.false_eq_true,
          if_false]
        rw [updateAt_getElem?_ne _ _ _ _ h, updateAt_getElem?_ne _ _ _ _ h]
      | error e =>
        simp only [handleRegenerateSingle, hi, hgen, Bool.false_eq_true,
          if_false]
        rw [updateAt_getElem?_ne _ _ _ _ h, updateAt_getElem?_ne _ _ _ _ h]

/-- C7: single-scene regenerate touches only the targeted index — whether
invoked once or twice in sequence (with arbitrary call outcomes), every
other position of the scene list is left exactly as it was. -/
theorem handleRegenerateSingle_frame (scenes : List Scene) (index : Nat)
    (gen gen2 : Except Unit (List Char)) (j : Nat) (h : j ≠ index) :
    (handleRegenerateSingle scenes index gen).1[j]? = scenes[j]? ∧
    (handleRegenerateSingle
        (handleRegenerateSingle scenes index gen).1 index gen2).1[j]? =
      scenes[j]? := by
  refine ⟨handleRegenerateSingle_getElem?_ne scenes index gen j h, ?_⟩
  rw [handleRegenerateSingle_getElem?_ne _ index gen2 j h]
  exact handleRegenerateSingle_getElem?_ne scenes index gen j h

/-- Closed witness for `handleRegenerateSingle_frame` at a concrete
two-scene list, regenerating index 0 and observing index 1. -/
theorem handleRegenerateSingle_frame_witness :
    (handleRegenerateSingle
        [⟨"1".toList, "a".toList, none, false, none⟩,
         ⟨"2".toList, "b".toList, none, false, none⟩] 0
        (.ok "img".toList)).1[1]? =
      (some ⟨"2".toList, "b".toList, none, false, none⟩ : Option Scene) := by
  have h := (handleRegenerateSingle_frame
    [⟨"1".toList, "a".toList, none, false, none⟩,
     ⟨"2".toList, "b".toList, none, false, none⟩] 0
    (.ok "img".toList) (.ok "img2".toList) 1 (by decide)).1
  rw [h]
  rfl

/-- C8: invoking single-scene regenerate on an index whose scene is
already generating, or on an index holding no scene, is a complete no-op:
no generation call is issued (empty event list) and the scene list is
returned unchanged. -/
theorem handleRegenerateSingle_guard_noop (scenes : List Scene) (index : Nat)
    (gen : Except Unit (List Char))
    (h : scenes[index]? = none ∨
      ∃ sc, scenes[index]? = some sc ∧ sc.isGenerating = true) :
    handleRegenerateSingle scenes index gen = (scenes, []) := by
  rcases h with h | ⟨sc, hsc, hgen⟩
  · simp only [handleRegenerateSingle, h]
  · simp only [handleRegenerateSingle, hsc, hgen, if_true]

/-- Closed witness for `handleRegenerateSingle_guard_noop`: regenerating
an already-generating scene leaves everything unchanged, and so does an
out-of-range index. -/
theorem handleRegenerateSingle_guard_noop_witness :
    handleRegenerateSingle
        [⟨"1".toList, "a".toList, none, true, none⟩] 0
        (.ok "img".toList) =
      ([⟨"1".toList, "a".toList, none, true, none⟩], []) ∧
    handleRegenerateSingle
        [⟨"1".toList, "a".toList, none, true, none⟩] 5
        (.ok "img".toList) =
      ([⟨"1".toList, "a".toList, none, true, none⟩], []) := by
  constructor
  · exact handleRegenerateSingle_guard_noop _ 0 _
      (Or.inr ⟨⟨"1".toList, "a".toList, none, true, none⟩, by decide, rfl⟩)
  · exact handleRegenerateSingle_guard_noop _ 5 _ (Or.inl (by decide))

/-! ## Counterexample and witness for the fallback split (C3) -/

/-- Counterexample to C3 as stated: the input `"aaaaaaa"` contains no
sentence-terminator at all (fewer than 6), yet the fallback produces one
scene, so the fallback can produce more scenes than there are
terminators. -/
theorem fallbackScenes_count_counterexample :
    ("aaaaaaa".toList).countP termChar < 6 ∧
    ¬ (fallbackScenes "aaaaaaa".toList).length ≤
        ("aaaaaaa".toList).countP termChar := by
  decide

/-- Closed witness for `fallbackScenes_spec`: the membership hypothesis is
discharged on a concrete two-sentence story. -/
theorem fallbackScenes_spec_witness :
    jsTrim "Hello there friend".toList = "Hello there friend".toList ∧
    5 < ("Hello there friend".toList).length :=
  (fallbackScenes_spec "Hello there friend. Goodbye now world.".toList).2.1
    "Hello there friend".toList (by decide)

/-! ## JSON values and a model of `JSON.parse` -/

/-- JSON values as produced by `JSON.parse`. -/
inductive Json where
  | null
  | bool (b : Bool)
  | num (n : Int)
  | str (s : List Char)
  | arr (elems : List Json)
  | obj (fields : List (List Char × Json))
  deriving Repr

/-- JSON insignificant whitespace. -/
def jsonWs (c : Char) : Bool :=
  c = ' ' || c = '\t' || c = '\n' || c = '\r'

def skipWs (s : List Char) : List Char := s.dropWhile jsonWs

/-- JSON string escape characters (the `\uXXXX` form is not modelled; it
does not occur in any input considered here). -/
def escChar (c : Char) : Option Char :=
  if c = '"' then some '"'
  else if c = '\\' then some '\\'
  else if c = '/' then some '/'
  else if c = 'n' then some '\n'
  else if c = 't' then some '\t'
  else if c = 'r' then some '\r'
  else if c = 'b' then some '\x08'
  else if c = 'f' then some '\x0c'
  else none

/-- Parse the body of a JSON string after the opening quote; returns the
decoded characters and the rest of the input after the closing quote. -/
def parseStringBody : List Char → Option (List Char × List Char)
  | [] => none
  | '"' :: rest => some ([], rest)
  | '\\' :: rest =>
    match rest with
    | [] => none
    | e :: rest' =>
      match escChar e with
      | some c => (parseStringBody rest').map (fun tr => (c :: tr.1, tr.2))
      | none => none
  | c :: rest => (parseStringBody rest).map (fun tr => (c :: tr.1, tr.2))

def isDigit (c : Char) : Bool := '0' ≤ c && c ≤ '9'

def digitsVal (ds : List Char) : Nat :=
  ds.foldl (fun acc c => acc * 10 + (c.toNat - '0'.toNat)) 0

/-- Parse a JSON integer literal (fractions and exponents are not
modelled; they do not occur in any input considered here). -/
def parseIntTok (s : List Char) : Option (Int × List Char) :=
  match s with
  | '-' :: rest =>
    let ds := rest.takeWhile isDigit
    if ds = [] then none
    else some (-(digitsVal ds : Int), rest.drop ds.length)
  | _ =>
    let ds := s.takeWhile isDigit
    if ds = [] then none
    else some ((digitsVal ds : Int), s.drop ds.length)

mutual

/-- Fuel-indexed recursive-descent JSON value parser; the fuel only bounds
recursion and is always instantiated large enough by `jsonParse`. -/
def parseValue : Nat → List Char → Option (Json × List Char)
  | 0, _ => none
  | fuel + 1, s =>
    match skipWs s with
    | '"' :: rest => (parseStringBody rest).map (fun tr => (Json.str tr.1, tr.2))
    | '[' :: rest =>
      (parseElems fuel rest).map (fun tr => (Json.arr tr.1, tr.2))
    | '\x7b' :: rest =>
      (parseFields fuel rest).map (fun tr => (Json.obj tr.1, tr.2))
    | rest =>
      if "null".toList.isPrefixOf rest then some (Json.null, rest.drop 4)
      else if "true".toList.isPrefixOf rest then some (Json.bool true, rest.drop 4)
      else if "false".toList.isPrefixOf rest then some (Json.bool false, rest.drop 5)
      else (parseIntTok rest).map (fun nr => (Json.num nr.1, nr.2))

/-- Array elements, entered right after `[`. -/
def parseElems : Nat → List Char → Option (List Json × List Char)
  | 0, _ => none
  | fuel + 1, s =>
    match skipWs s with
    | ']' :: rest => some ([], rest)
    | s' =>
      match parseValue fuel s' with
      | none => none
      | some (v, r) =>
        match parseElemsRest fuel r with
        | none => none
        | some (vs, r') => some (v :: vs, r')

/-- Array elements after the first value: either `]` or `,` then a value. -/
def parseElemsRest : Nat → List Char → Option (List Json × List Char)
  | 0, _ => none
  | fuel + 1, s =>
    match skipWs s with
    | ']' :: rest => some ([], rest)
    | ',' :: rest =>
      match parseValue fuel rest with
      | none => none
      | some (v, r) =>
        match parseElemsRest fuel r with
        | none => none
        | some (vs, r') => some (v :: vs, r')
    | _ => none

/-- Object fields, entered right after the opening brace. -/
def parseFields : Nat → List Char → Option (List (List Char × Json) × List Char)
  | 0, _ => none
  | fuel + 1, s =>
    match skipWs s with
    | '\x7d' :: rest => some ([], rest)
    | s' =>
      match parseField fuel s' with
      | none => none
      | some (kv, r) =>
        match parseFieldsRest fuel r with
        | none => none
        | some (kvs, r') => some (kv :: kvs, r')

/-- Object fields after the first one: either closing brace or `,` then a
field. -/
def parseFieldsRest : Nat → List Char → Option (List (List Char × Json) × List Char)
  | 0, _ => none
  | fuel + 1, s =>
    match skipWs s with
    | '\x7d' :: rest => some ([], rest)
    | ',' :: rest =>
      match parseField fuel rest with
      | none => none
      | some (kv, r) =>
        match parseFieldsRest fuel r with
        | none => none
        | some (kvs, r') => some (kv :: kvs, r')
    | _ => none

/-- One `"key": value` field. -/
def parseField : Nat → List Char → Option ((List Char × Json) × List Char)
  | 0, _ => none
  | fuel + 1, s =>
    match skipWs s with
    | '"' :: rest =>
      match parseStringBody rest with
      | none => none
      | some (k, r) =>
        match skipWs r with
        | ':' :: r2 =>
          match parseValue fuel r2 with
          | none => none
          | some (v, r3) => some ((k, v), r3)
        | _ => none
    | _ => none

end

/-- Model of `JSON.parse`: parse one value and require only whitespace to
remain. -/
def jsonParse (s : List Char) : Option Json :=
  match parseValue (2 * s.length + 2) s with
  | some (v, rest) => if skipWs rest = [] then some v else none
  | none => none

/-- JS property lookup on a parsed object: for duplicate keys
`JSON.parse` keeps the last occurrence. -/
def lookupField (k : List Char) (fs : List (List Char × Json)) : Option Json :=
  ((fs.filter (fun kv => kv.1 = k)).getLast?).map Prod.snd

/-! ## `breakdownStory` (geminiService.ts lines 8–56) -/

/-- JS `item.description` on an array element: accessing a property of
`null` throws (`none`); on a non-object it yields `undefined`
(`some none`); on an object it is the field value if present. -/
def itemDescr : Json → Option (Option Json)
  | Json.null => none
  | Json.obj fs => some (lookupField "description".toList fs)
  | _ => some none

/-- JS `response.text || "[]"`: a missing or empty response text is
replaced by the empty-array literal. -/
def jsOrEmptyArr (t : Option (List Char)) : List Char :=
  match t with
  | none => "[]".toList
  | some v => if v = [] then "[]".toList else v

/-- Happy path of `breakdownStory` after the vendor call: `JSON.parse`
the response text, then `parsed.map(item => ... item.description ...)`.
`none` models a thrown exception: `JSON.parse` failing, `parsed.map` not
being a function (the parse result is not an array), or a `null` array
element.  On success the list of `description` properties is returned
(`none` entries model `undefined`). -/
def breakdownHappy (jsonStr : List Char) : Option (List (Option Json)) :=
  match jsonParse jsonStr with
  | some (Json.arr items) => items.mapM itemDescr
  | _ => none

/-- Embedding of `breakdownStory` (geminiService.ts lines 8–56).  The
vendor call is abstracted by its response text `respText` (`none` models
a missing `response.text`).  Any exception in the `try` block lands in
the `catch` fallback, the naive sentence split of the story text.  Each
returned scene is represented by its `description` value. -/
def breakdownStory (respText : Option (List Char)) (storyText : List Char) :
    List (Option Json) :=
  match breakdownHappy (jsOrEmptyArr respText) with
  | some descrs => descrs
  | none => (fallbackScenes storyText).map (fun d => some (Json.str d))

/-- A code-fenced model response around a valid JSON scene array. -/
def fencedResp : List Char :=
  "```json\n[\x7b\"description\":\"A scene\"\x7d]\n```".toList

/-- A model response wrapping the scene array in an object under a key. -/
def objResp : List Char :=
  "\x7b\"scenes\": [\x7b\"description\":\"A scene\"\x7d]\x7d".toList

/-- A bare JSON array model response. -/
def bareResp : List Char :=
  "[\x7b\"description\":\"A scene\"\x7d]".toList

/-- Counterexample to C4: on a code-fenced response wrapping the scene
array, `breakdownStory` does not return the contained scene list — the
fence is not stripped, `JSON.parse` throws, and the naive fallback split
of the story text is returned instead. -/
theorem breakdownStory_fence_counterexample :
    breakdownStory (some fencedResp)
        "The quick brown fox jumps".toList ≠
      [some (Json.str "A scene".toList)] ∧
    breakdownStory (some fencedResp) "The quick brown fox jumps".toList =
      [some (Json.str "The quick brown fox jumps".toList)] := by
  have h2 : breakdownStory (some fencedResp)
      "The quick brown fox jumps".toList =
      [some (Json.str "The quick brown fox jumps".toList)] := rfl
  refine ⟨?_, h2⟩
  rw [h2]
  intro h
  have hh := (List.cons.inj h).1
  have h3 : Json.str "The quick brown fox jumps".toList =
      Json.str "A scene".toList := Option.some.inj hh
  have h4 : "The quick brown fox jumps".toList = "A scene".toList := by
    injection h3
  exact absurd h4 (by decide)

/-- C4 as amended: `breakdownStory` performs no code-fence stripping and
accepts only a bare JSON array; both a fenced response and an
object-wrapped response make the happy path throw, so the naive fallback
split of the story text is returned; a bare array response yields the
contained scene list. -/
theorem breakdownStory_response_shapes (storyText : List Char) :
    breakdownStory (some fencedResp) storyText =
      (fallbackScenes storyText).map (fun d => some (Json.str d)) ∧
    breakdownStory (some objResp) storyText =
      (fallbackScenes storyText).map (fun d => some (Json.str d)) ∧
    breakdownStory (some bareResp) storyText =
      [some (Json.str "A scene".toList)] := by
  have h1 : breakdownHappy (jsOrEmptyArr (some fencedResp)) = none := rfl
  have h2 : breakdownHappy (jsOrEmptyArr (some objResp)) = none := rfl
  have h3 : breakdownHappy (jsOrEmptyArr (some bareResp)) =
      some [some (Json.str "A scene".toList)] := rfl
  refine ⟨?_, ?_, ?_⟩
  · rw [breakdownStory, h1]
  · rw [breakdownStory, h2]
  · rw [breakdownStory, h3]

/-! ## Request parts and the data-URI regex -/

/-- One entry of the `parts` array sent to (or received from) the vendor:
either inline base64 data with its MIME type, or a text part. -/
inductive Part where
  | inlineData (mimeType : List Char) (data : List Char)
  | text (t : List Char)
  deriving Repr, DecidableEq

/-- Characters excluded by `.` in a JS regex without the `s` flag
(line terminators). -/
def jsLineTerm (c : Char) : Bool :=
  c = '\n' || c = '\r' || c = Char.ofNat 0x2028 || c = Char.ofNat 0x2029

def noLineTerm (s : List Char) : Bool := s.all (fun c => !jsLineTerm c)

/-- Model of `base64Image.match(/^data:(.+);base64,(.+)$/)`: the greedy
match splitting at the last possible `;base64,` occurrence, with both
captures nonempty and free of line terminators (JS `.` does not match
them).  Returns `(mimeType, data)` on success. -/
def dataUriMatch (s : List Char) : Option (List Char × List Char) :=
  if "data:".toList.isPrefixOf s then
    let r := s.drop 5
    ((List.range (r.length + 1)).reverse.filterMap (fun i =>
      let m := r.take i
      let rest := r.drop i
      if (decide (m ≠ []) && ";base64,".toList.isPrefixOf rest &&
          decide (rest.drop 8 ≠ []) && noLineTerm m &&
          noLineTerm (rest.drop 8)) = true
      then some (m, rest.drop 8) else none)).head?
  else none

/-! ## `analyzeCharacterFromImage` (geminiService.ts lines 58–90) -/

/-- The fixed vision-analysis instruction sent with the reference image
(apostrophes written as `\x27`). -/
def analysisInstruction : List Char :=
  ("Analyze this character image. Provide a comma-separated list of key visual features to maintain consistency (e.g., \x27short black hair, red glasses, blue hoodie, denim jeans, white sneakers\x27). Focus ONLY on physical appearance and clothing. Do not mention pose or background.").toList

/-- Embedding of `analyzeCharacterFromImage` (geminiService.ts lines
58–90).  `cfg` models the client construction (`getClient`, which throws
on missing configuration); `vendor` models the awaited
`ai.models.generateContent` call, mapping the sent parts to either a
rejection or a response with optional `text`.  The surrounding
`try`/`catch` of the source maps any thrown error to the empty string. -/
def analyzeCharacterFromImage (cfg : Except Unit Unit) (base64Image : List Char)
    (vendor : List Part → Except Unit (Option (List Char))) :
    Except Unit (List Char) :=
  let body : Except Unit (List Char) :=
    match cfg with
    | .error e => .error e
    | .ok _ =>
      match dataUriMatch base64Image with
      | none => .ok []
      | some (mimeType, data) =>
        match vendor [Part.text analysisInstruction,
                      Part.inlineData mimeType data] with
        | .error e => .error e
        | .ok t => .ok (t.getD [])
  match body with
  | .ok res => .ok res
  | .error _ => .ok []

/-- C5: `analyzeCharacterFromImage` never throws to its caller — it
always returns `ok` — and on a failed client construction, a malformed
data-URI, or a rejected vendor call it returns the empty string. -/
theorem analyzeCharacterFromImage_never_throws (cfg : Except Unit Unit)
    (base64Image : List Char)
    (vendor : List Part → Except Unit (Option (List Char))) :
    (∃ res, analyzeCharacterFromImage cfg base64Image vendor = .ok res) ∧
    (cfg = .error () → analyzeCharacterFromImage cfg base64Image vendor = .ok []) ∧
    (dataUriMatch base64Image = none →
      analyzeCharacterFromImage cfg base64Image vendor = .ok []) ∧
    ((∀ parts, vendor parts = .error ()) →
      analyzeCharacterFromImage cfg base64Image vendor = .ok []) := by
  unfold analyzeCharacterFromImage
  refine ⟨?_, ?_, ?_, ?_⟩
  · cases cfg with
    | error e => exact ⟨[], rfl⟩
    | ok u =>
      cases hm : dataUriMatch base64Image with
      | none => exact ⟨[], rfl⟩
      | some md =>
        cases hv : vendor [Part.text analysisInstruction,
            Part.inlineData md.1 md.2] with
        | error e => exact ⟨[], by simp [hm, hv]⟩
        | ok t => exact ⟨t.getD [], by simp [hm, hv]⟩
  · intro hc
    subst hc
    rfl
  · intro hm
    cases cfg with
    | error e => rfl
    | ok u => simp [hm]
  · intro hv
    cases cfg with
    | error e => rfl
    | ok u =>
      cases hm : dataUriMatch base64Image with
      | none => simp [hm]
      | some md => simp [hm, hv]

/-- Closed witness for `analyzeCharacterFromImage_never_throws`: a
malformed data-URI yields the empty string. -/
theorem analyzeCharacterFromImage_never_throws_witness :
    analyzeCharacterFromImage (.ok ()) "not a data uri".toList
        (fun _ => .ok (some "features".toList)) = .ok [] :=
  (analyzeCharacterFromImage_never_throws (.ok ()) "not a data uri".toList
    (fun _ => .ok (some "features".toList))).2.2.1 (by decide)

/-! ## `generateImageFromPrompt` (geminiService.ts lines 92–138) -/

/-- The error message rethrown by the `catch` of
`generateImageFromPrompt`. -/
def imgFailMsg : List Char := "Failed to generate image.".toList

/-- Data-URL scheme prepended to vendor image bytes on success. -/
def pngPre : List Char := "data:image/png;base64,".toList

/-- Parts array built by `generateImageFromPrompt`: the optional
reference image (if it matches the data-URI pattern) followed by the
text prompt. -/
def builtParts (promptText : List Char)
    (referenceImageBase64 : Option (List Char)) : List Part :=
  (match referenceImageBase64 with
   | some r =>
     match dataUriMatch r with
     | some (m, d) => [Part.inlineData m d]
     | none => []
   | none => []) ++ [Part.text promptText]

/-- First part of the response carrying `inlineData`, if any — the loop
`for (const part of response.candidates?.[0]?.content?.parts || [])`. -/
def firstInline : List Part → Option (List Char)
  | [] => none
  | Part.inlineData _ d :: _ => some d
  | Part.text _ :: rest => firstInline rest

/-- Embedding of `generateImageFromPrompt` (geminiService.ts lines
92–138).  `vendor` models the awaited `generateContent` call; its `ok`
payload is the optional parts list of
`response.candidates?.[0]?.content?.parts` (`none` collapses the missing
optional chain, read back as `[]`).  Finding no inline-data part throws
(`No image generated.`), and the `catch` rethrows every failure as
`Failed to generate image.`. -/
def generateImageFromPrompt (cfg : Except Unit Unit) (promptText : List Char)
    (referenceImageBase64 : Option (List Char))
    (vendor : List Part → Except Unit (Option (List Part))) :
    Except (List Char) (List Char) :=
  let body : Except Unit (List Char) :=
    match cfg with
    | .error e => .error e
    | .ok _ =>
      match vendor (builtParts promptText referenceImageBase64) with
      | .error e => .error e
      | .ok resp =>
        match firstInline (resp.getD []) with
        | some data => .ok (pngPre ++ data)
        | none => .error ()
  match body with
  | .ok url => .ok url
  | .error _ => .error imgFailMsg

/-- Counterexample to C2: with a healthy client and a vendor response
containing no image part, `generateImageFromPrompt` propagates an error
to its caller — it does not return any placeholder image. -/
theorem generateImageFromPrompt_counterexample :
    generateImageFromPrompt (.ok ()) "a prompt".toList none
        (fun _ => .ok (some [Part.text "no image for you".toList])) =
      .error imgFailMsg := rfl

/-- C2 as amended: every failure path of `generateImageFromPrompt`
(client-construction failure, rejected vendor call, or a response with no
inline-image part) throws `Failed to generate image.` to the caller, and
every successful return is the vendor image bytes behind the fixed
data-URL scheme — no placeholder image exists. -/
theorem generateImageFromPrompt_failures_throw (cfg : Except Unit Unit)
    (promptText : List Char) (referenceImageBase64 : Option (List Char))
    (vendor : List Part → Except Unit (Option (List Part))) :
    (cfg = .error () →
      generateImageFromPrompt cfg promptText referenceImageBase64 vendor =
        .error imgFailMsg) ∧
    (vendor (builtParts promptText referenceImageBase64) = .error () →
      generateImageFromPrompt cfg promptText referenceImageBase64 vendor =
        .error imgFailMsg) ∧
    (∀ resp, vendor (builtParts promptText referenceImageBase64) = .ok resp →
      firstInline (resp.getD []) = none →
      generateImageFromPrompt cfg promptText referenceImageBase64 vendor =
        .error imgFailMsg) ∧
    (∀ url, generateImageFromPrompt cfg promptText referenceImageBase64 vendor =
        .ok url → ∃ data, url = pngPre ++ data) := by
  unfold generateImageFromPrompt
  refine ⟨?_, ?_, ?_, ?_⟩
  · intro hc
    subst hc
    rfl
  · intro hv
    cases cfg with
    | error e => rfl
    | ok u => simp [hv]
  · intro resp hv hfi
    cases cfg with
    | error e => rfl
    | ok u => simp [hv, hfi]
  · intro url h
    cases cfg with
    | error e => simp at h
    | ok u =>
      cases hv : vendor (builtParts promptText referenceImageBase64) with
      | error e => simp [hv] at h
      | ok resp =>
        cases hfi : firstInline (resp.getD []) with
        | none => simp [hv, hfi] at h
        | some data =>
          simp [hv, hfi] at h
          exact ⟨data, h.symm⟩

/-- Closed witness for `generateImageFromPrompt_failures_throw`: a
rejected vendor call produces the rethrown error, and a successful call
returns the data-URL-prefixed bytes. -/
theorem generateImageFromPrompt_failures_throw_witness :
    generateImageFromPrompt (.ok ()) "a prompt".toList none
        (fun _ => .error ()) = .error imgFailMsg :=
  (generateImageFromPrompt_failures_throw (.ok ()) "a prompt".toList none
    (fun _ => .error ())).2.1 rfl

/-! ## The social-preview middleware (gallery edge function) -/

/-- Model of `caption.replace(/"/g, '\x27&quot;\x27')`: replace every
double quote by its HTML entity. -/
def escapeQuotes : List Char → List Char
  | [] => []
  | c :: t => (if c = '"' then "&quot;".toList else [c]) ++ escapeQuotes t

/-- JS `image.caption || 'StoryBoard AI'`: a missing or empty caption
falls back to the fixed title. -/
def jsOrDefaultCaption (caption : Option (List Char)) : List Char :=
  match caption with
  | none => "StoryBoard AI".toList
  | some c => if c = [] then "StoryBoard AI".toList else c

/-- The middleware title derivation:
`(image.caption || 'StoryBoard AI').replace(/"/g, '&quot;').substring(0, 50)`
— escape first, truncate to 50 characters afterwards. -/
def safeTitle (caption : Option (List Char)) : List Char :=
  (escapeQuotes (jsOrDefaultCaption caption)).take 50

/-- Opening text of the share description, up to and including the
opening quote. -/
def descHead : List Char := "Check out this comic panel: \"".toList

/-- Closing text of the share description: ellipsis and closing quote. -/
def descTail : List Char := "...\"".toList

/-- The share description template built around the safe title. -/
def descriptionOf (t : List Char) : List Char :=
  descHead ++ t ++ descTail

/-! The `newMetaTags` template literal, written as named atoms so that the
individual tags can be addressed in proofs; `newMetaTags_eval` below
checks that the concatenation reproduces the source template verbatim. -/

def nlTitle : List Char := "\n      <title>".toList
def titleCloseNl : List Char := "</title>\n      ".toList
def ogtOpen : List Char := "<meta property=\"og:title\" content=\"".toList
def clq : List Char := "\" />".toList
def nl6 : List Char := "\n      ".toList
def ogdOpen : List Char := "<meta property=\"og:description\" content=\"".toList
def ogOpen : List Char := "<meta property=\"og:image\" content=\"".toList
def widthsCard : List Char :=
  ("\n      <meta property=\"og:image:width\" content=\"1024\" />" ++
   "\n      <meta property=\"og:image:height\" content=\"1024\" />" ++
   "\n      " ++
   "\n      <meta name=\"twitter:card\" content=\"summary_large_image\" />" ++
   "\n      ").toList
def twtOpen : List Char := "<meta name=\"twitter:title\" content=\"".toList
def twdOpen : List Char := "<meta name=\"twitter:description\" content=\"".toList
def twiOpen : List Char := "<meta name=\"twitter:image\" content=\"".toList
def tagsTail : List Char := "\n    ".toList

/-- The `newMetaTags` template of the middleware, as a function of the
safe title `t`, description `d` and image URL `u`. -/
def newMetaTags (t d u : List Char) : List Char :=
  nlTitle ++ t ++ titleCloseNl ++ ogtOpen ++ t ++ clq ++ nl6 ++
  ogdOpen ++ d ++ clq ++ nl6 ++ ogOpen ++ u ++ clq ++ widthsCard ++
  twtOpen ++ t ++ clq ++ nl6 ++ twdOpen ++ d ++ clq ++ nl6 ++
  twiOpen ++ u ++ clq ++ tagsTail

set_option maxRecDepth 8000 in
/-- Sanity check: the atom decomposition reproduces the source template
literal character for character. -/
theorem newMetaTags_eval :
    newMetaTags "T0".toList "D0".toList "U0".toList =
      ("\n      <title>T0</title>" ++
       "\n      <meta property=\"og:title\" content=\"T0\" />" ++
       "\n      <meta property=\"og:description\" content=\"D0\" />" ++
       "\n      <meta property=\"og:image\" content=\"U0\" />" ++
       "\n      <meta property=\"og:image:width\" content=\"1024\" />" ++
       "\n      <meta property=\"og:image:height\" content=\"1024\" />" ++
       "\n      " ++
       "\n      <meta name=\"twitter:card\" content=\"summary_large_image\" />" ++
       "\n      <meta name=\"twitter:title\" content=\"T0\" />" ++
       "\n      <meta name=\"twitter:description\" content=\"D0\" />" ++
       "\n      <meta name=\"twitter:image\" content=\"U0\" />" ++
       "\n    ").toList := by decide

/-- Lazy search for the closing delimiter of a `pre.*?suf` regex match:
scan forward for the earliest occurrence of `suf`, failing on a line
terminator (JS `.` does not cross lines); returns the input remaining
after `suf`. -/
def lazyFind (suf : List Char) : List Char → Option (List Char)
  | [] => none
  | c :: cs =>
    if suf.isPrefixOf (c :: cs) then some ((c :: cs).drop suf.length)
    else if jsLineTerm c then none
    else lazyFind suf cs

/-- Model of `str.replace(new RegExp(pre + ".*?" + suf, "g"), "")` for
literal `pre`/`suf`: delete every lazily-closed match, scanning left to
right and resuming after each deletion.  The fuel argument only bounds
recursion; `stripTag` instantiates it with the string length, which
always suffices. -/
def stripB (pre suf : List Char) : Nat → List Char → List Char
  | 0, s => s
  | _ + 1, [] => []
  | fuel + 1, c :: cs =>
    if pre.isPrefixOf (c :: cs) then
      match lazyFind suf ((c :: cs).drop pre.length) with
      | some rest => stripB pre suf fuel rest
      | none => c :: stripB pre suf fuel cs
    else c :: stripB pre suf fuel cs

def stripTag (pre suf s : List Char) : List Char :=
  stripB pre suf s.length s

/-- The eight cleanup regexes of the middleware, applied in source
order. -/
def stripAll (html : List Char) : List Char :=
  stripTag "<meta name=\"twitter:card\"".toList ">".toList
    (stripTag "<meta name=\"twitter:image\"".toList ">".toList
      (stripTag "<meta name=\"twitter:description\"".toList ">".toList
        (stripTag "<meta name=\"twitter:title\"".toList ">".toList
          (stripTag "<meta property=\"og:image\"".toList ">".toList
            (stripTag "<meta property=\"og:description\"".toList ">".toList
              (stripTag "<meta property=\"og:title\"".toList ">".toList
                (stripTag "<title>".toList "</title>".toList html)))))))

/-- JS `str.replace(pat, rep)` with a plain-string pattern: replace the
first occurrence only; no occurrence leaves the string unchanged. -/
def replaceFirst (pat rep : List Char) : List Char → List Char
  | [] => []
  | c :: cs =>
    if pat.isPrefixOf (c :: cs) then rep ++ (c :: cs).drop pat.length
    else c :: replaceFirst pat rep cs

def headClose : List Char := "</head>".toList

/-- Embedding of the HTML-rewriting core of the middleware (gallery edge
function, success path after the row lookup): derive the safe title and
description from the stored caption, strip the pre-existing tags from the
fetched page, and insert the fresh meta tags in front of `</head>`. -/
def middlewareRewrite (caption : Option (List Char))
    (imageUrl html : List Char) : List Char :=
  replaceFirst headClose
    (newMetaTags (safeTitle caption) (descriptionOf (safeTitle caption))
        imageUrl ++ headClose)
    (stripAll html)

/-- A representative deployed `index.html`, with a pre-existing title and
og tags that the middleware strips. -/
def demoPage : List Char :=
  ("<!doctype html><html><head><title>StoryBoard AI</title>" ++
   "<meta property=\"og:title\" content=\"Old\" />" ++
   "<meta property=\"og:image\" content=\"https://old/img.png\" />" ++
   "<meta charset=\"utf-8\" /></head>" ++
   "<body><div id=\"root\"></div></body></html>").toList

/-! ### Counting pattern occurrences in the rewritten page -/

/-- Number of positions of `s` at which `pat` occurs as a substring. -/
def countOccur (pat s : List Char) : Nat :=
  (List.range (s.length + 1)).countP (fun i => decide (pat <+: s.drop i))

/-- A prefix of an append that fits inside the left part is a prefix of
the left part. -/
theorem prefix_of_append_of_le {p u v : List Char} (h : p <+: u ++ v)
    (hl : p.length ≤ u.length) : p <+: u := by
  rw [List.prefix_iff_eq_take] at h ⊢
  rwa [List.take_append_of_le_length hl] at h

/-- A prefix of `c ++ s` restricted to the length of `c` is a prefix of
`c`. -/
theorem take_prefix_of_prefix_append {q c s : List Char}
    (h : q <+: c ++ s) : q.take c.length <+: c := by
  by_cases hl : q.length ≤ c.length
  · rw [List.take_of_length_le hl]
    exact prefix_of_append_of_le h hl
  · push_neg at hl
    have hq : q.take c.length = c := by
      rw [List.prefix_iff_eq_take] at h
      rw [h, List.take_take]
      have hmin : c.length ⊓ q.length = c.length := by omega
      rw [hmin, List.take_append_of_le_length (le_refl _), List.take_length]
    rw [hq]

/-- Occurrence count over an append splits when no occurrence straddles
the boundary. -/
theorem countOccur_append (pat x y : List Char) (hpne : pat ≠ [])
    (hns : ∀ i, i < x.length → x.length < i + pat.length →
      ¬ (pat <+: x.drop i ++ y)) :
    countOccur pat (x ++ y) = countOccur pat x + countOccur pat y := by
  unfold countOccur
  have hlen : (x ++ y).length + 1 = x.length + (y.length + 1) := by
    rw [List.length_append]
    omega
  rw [hlen, List.range_add, List.countP_append, List.countP_map]
  congr 1
  · -- positions strictly inside `x`
    have hstep : (List.range (x.length + 1)).countP
          (fun i => decide (pat <+: x.drop i)) =
        (List.range x.length).countP (fun i => decide (pat <+: x.drop i)) := by
      rw [List.range_succ, List.countP_append]
      have hz : List.countP (fun i => decide (pat <+: x.drop i)) [x.length] = 0 := by
        apply List.countP_eq_zero.mpr
        intro a ha
        simp only [List.mem_singleton] at ha
        subst ha
        simp only [List.drop_length, decide_eq_true_eq]
        intro hp
        exact hpne (List.prefix_nil.mp hp)
      rw [hz]
      omega
    rw [hstep]
    apply List.countP_congr
    intro i hi
    rw [List.mem_range] at hi
    rw [List.drop_append_of_le_length (le_of_lt hi)]
    simp only [decide_eq_true_eq]
    constructor
    · intro hp
      by_cases hfit : i + pat.length ≤ x.length
      · exact prefix_of_append_of_le hp
          (by rw [List.length_drop]; omega)
      · exact absurd hp (hns i hi (by omega))
    · intro hp
      exact hp.trans (List.prefix_append _ y)
  · -- positions at or beyond the boundary
    apply List.countP_congr
    intro i hi
    simp only [Function.comp]
    rw [List.drop_append]

/-- Occurrence count over an append where the left part carries no
occurrence at all. -/
theorem countOccur_left_none (pat S rest : List Char) (hpne : pat ≠ [])
    (hno : ∀ i, i < S.length → ¬ (pat <+: S.drop i ++ rest)) :
    countOccur pat (S ++ rest) = countOccur pat rest := by
  rw [countOccur_append pat S rest hpne (fun i hi _ => hno i hi)]
  have hz : countOccur pat S = 0 := by
    unfold countOccur
    apply List.countP_eq_zero.mpr
    intro i hi
    rw [List.mem_range] at hi
    simp only [decide_eq_true_eq]
    intro hp
    by_cases his : i < S.length
    · exact hno i his (hp.trans (List.prefix_append _ rest))
    · have : i = S.length := by omega
      subst this
      rw [List.drop_length] at hp
      exact hpne (List.prefix_nil.mp hp)
  rw [hz, Nat.zero_add]

/-- Core exclusion lemma used around each symbolic insertion `S`
(safe title or image URL) of the rewritten page: `S` is quote-free and
nonempty, `c` is the concrete text following `S`, `Cprev` the concrete
text preceding it, and `pat` a pattern whose every nonempty suffix
contains a quote.  Hypothesis `hAB` is the (decidable, per-instance)
check that no way of writing `pat` as
(suffix of `Cprev`) ++ (quote-free segment) ++ (prefix-compatible rest)
exists.  Conclusion: no occurrence of `pat` starts inside `S`, and no
occurrence straddles from `Cprev` into `S ++ c ++ s`. -/
theorem no_occ_through_sym (pat S c Cprev s : List Char)
    (hpne : pat ≠ []) (hSne : S ≠ []) (hqS : '"' ∉ S)
    (hqsuf : ∀ k, k < pat.length → '"' ∈ pat.drop k)
    (hAB : ∀ j, j < pat.length → ∀ m, m < j → '"' ∉ (pat.take j).drop m →
      pat.take m <:+ Cprev → ¬ ((pat.drop j).take c.length <+: c)) :
    (∀ i, i < S.length → ¬ (pat <+: S.drop i ++ (c ++ s))) ∧
    (∀ i, i < Cprev.length → Cprev.length < i + pat.length →
      ¬ (pat <+: Cprev.drop i ++ (S ++ (c ++ s)))) := by
  have hplen : 0 < pat.length := List.length_pos.mpr hpne
  constructor
  · intro i hi hcon
    have hwlen : (S.drop i).length = S.length - i := List.length_drop i S
    by_cases hlen : pat.length ≤ (S.drop i).length
    · have hp : pat <+: S.drop i := prefix_of_append_of_le hcon hlen
      have hqp : '"' ∈ pat := by
        have := hqsuf 0 hplen
        simpa using this
      exact hqS (List.drop_subset i S (hp.subset hqp))
    · push_neg at hlen
      have hwp : S.drop i <+: pat :=
        List.prefix_of_prefix_length_le (List.prefix_append _ _) hcon
          (le_of_lt hlen)
      have hwtake : S.drop i = pat.take (S.drop i).length :=
        List.prefix_iff_eq_take.mp hwp
      have hdrop : pat.drop (S.drop i).length <+: c ++ s := by
        have h0 : pat.take (S.drop i).length ++ pat.drop (S.drop i).length <+:
            pat.take (S.drop i).length ++ (c ++ s) := by
          rw [List.take_append_drop]
          rwa [hwtake] at hcon
        exact (List.prefix_append_right_inj _).mp h0
      have hseg : '"' ∉ (pat.take (S.drop i).length).drop 0 := by
        simp only [List.drop_zero]
        rw [← hwtake]
        intro hmem
        exact hqS (List.drop_subset i S hmem)
      have hwpos : 0 < (S.drop i).length := by
        rw [hwlen]
        omega
      exact hAB (S.drop i).length hlen 0 hwpos hseg
        (by simp [List.nil_suffix])
        (take_prefix_of_prefix_append hdrop)
  · intro i hi hlt hcon
    have hvlen : (Cprev.drop i).length = Cprev.length - i := List.length_drop i Cprev
    have hvpos : 0 < (Cprev.drop i).length := by omega
    have hvlt : (Cprev.drop i).length < pat.length := by omega
    have hvp : Cprev.drop i <+: pat :=
      List.prefix_of_prefix_length_le (List.prefix_append _ _) hcon
        (le_of_lt hvlt)
    have hvtake : Cprev.drop i = pat.take (Cprev.drop i).length :=
      List.prefix_iff_eq_take.mp hvp
    have hq : pat.drop (Cprev.drop i).length <+: S ++ (c ++ s) := by
      have h0 : pat.take (Cprev.drop i).length ++
          pat.drop (Cprev.drop i).length <+:
          pat.take (Cprev.drop i).length ++ (S ++ (c ++ s)) := by
        rw [List.take_append_drop]
        rwa [hvtake] at hcon
      exact (List.prefix_append_right_inj _).mp h0
    have hqlen : (pat.drop (Cprev.drop i).length).length =
        pat.length - (Cprev.drop i).length := List.length_drop _ _
    have hqq : '"' ∈ pat.drop (Cprev.drop i).length := hqsuf _ hvlt
    by_cases hql : (pat.drop (Cprev.drop i).length).length ≤ S.length
    · have hp : pat.drop (Cprev.drop i).length <+: S :=
        prefix_of_append_of_le hq hql
      exact hqS (hp.subset hqq)
    · push_neg at hql
      have hSp : S <+: pat.drop (Cprev.drop i).length :=
        List.prefix_of_prefix_length_le (List.prefix_append _ _) hq
          (le_of_lt hql)
      have hStake : S = (pat.drop (Cprev.drop i).length).take S.length :=
        List.prefix_iff_eq_take.mp hSp
      have hq2 : (pat.drop (Cprev.drop i).length).drop S.length <+: c ++ s := by
        have h0 : (pat.drop (Cprev.drop i).length).take S.length ++
            (pat.drop (Cprev.drop i).length).drop S.length <+:
            (pat.drop (Cprev.drop i).length).take S.length ++ (c ++ s) := by
          rw [List.take_append_drop]
          rwa [hStake] at hq
        exact (List.prefix_append_right_inj _).mp h0
      have hdd : (pat.drop (Cprev.drop i).length).drop S.length =
          pat.drop ((Cprev.drop i).length + S.length) :=
        List.drop_drop S.length (Cprev.drop i).length pat
      have hSpos : 0 < S.length := List.length_pos.mpr hSne
      have hjlt : (Cprev.drop i).length + S.length < pat.length := by omega
      have hseg : '"' ∉ (pat.take ((Cprev.drop i).length + S.length)).drop
          (Cprev.drop i).length := by
        rw [List.drop_take]
        have harith : (Cprev.drop i).length + S.length -
            (Cprev.drop i).length = S.length := by omega
        rw [harith, ← hStake]
        exact hqS
      have hend : pat.take (Cprev.drop i).length <:+ Cprev := by
        rw [← hvtake]
        exact List.drop_suffix i Cprev
      have hcompat : ((pat.drop ((Cprev.drop i).length + S.length)).take
          c.length) <+: c := by
        rw [← hdd]
        exact take_prefix_of_prefix_append hq2
      exact hAB ((Cprev.drop i).length + S.length) hjlt (Cprev.drop i).length
        (by omega) hseg hend hcompat

/-! ### Quote escaping and first-occurrence replacement lemmas -/

theorem escapeQuotes_no_quote (s : List Char) : '"' ∉ escapeQuotes s := by
  induction s with
  | nil => simp [escapeQuotes]
  | cons c t ih =>
    intro h
    rcases List.mem_append.mp h with h1 | h1
    · by_cases hc : c = '"'
      · rw [if_pos hc] at h1
        revert h1
        decide
      · rw [if_neg hc] at h1
        simp only [List.mem_singleton] at h1
        exact hc h1.symm
    · exact ih h1

theorem escapeQuotes_ne_nil {s : List Char} (h : s ≠ []) :
    escapeQuotes s ≠ [] := by
  cases s with
  | nil => exact absurd rfl h
  | cons c t =>
    simp only [escapeQuotes]
    by_cases hc : c = '"'
    · rw [if_pos hc]
      simp
    · rw [if_neg hc]
      simp

theorem quot_entity_infix {s : List Char} (h : '"' ∈ s) :
    "&quot;".toList <:+: escapeQuotes s := by
  induction s with
  | nil => simp at h
  | cons c t ih =>
    by_cases hc : c = '"'
    · refine ⟨[], escapeQuotes t, ?_⟩
      simp [escapeQuotes, hc]
    · have ht : '"' ∈ t := by
        rcases List.mem_cons.mp h with h1 | h1
        · exact absurd h1.symm hc
        · exact h1
      obtain ⟨u, v, huv⟩ := ih ht
      refine ⟨[c] ++ u, v, ?_⟩
      simp only [escapeQuotes, if_neg hc]
      rw [← huv]
      simp [List.append_assoc]

theorem replaceFirst_append (pat rep : List Char) : ∀ (A B : List Char),
    pat ≠ [] →
    (∀ i, i < A.length → ¬ (pat <+: (A ++ pat).drop i)) →
    replaceFirst pat rep (A ++ (pat ++ B)) = A ++ (rep ++ B) := by
  intro A
  induction A with
  | nil =>
    intro B hne _
    simp only [List.nil_append]
    cases hp : pat with
    | nil => exact absurd hp hne
    | cons p ps =>
      subst hp
      have hcons : (p :: ps) ++ B = p :: (ps ++ B) := rfl
      rw [hcons]
      unfold replaceFirst
      rw [if_pos (List.isPrefixOf_iff_prefix.mpr
        (by rw [← hcons]; exact List.prefix_append _ _))]
      rw [← hcons, List.drop_left]
  | cons a A' ih =>
    intro B hne hA
    have hnp : ¬ (pat <+: (a :: A') ++ (pat ++ B)) := by
      intro hp
      have hle : pat.length ≤ ((a :: A') ++ pat).length := by
        rw [List.length_append]
        omega
      have hp2 : pat <+: ((a :: A') ++ pat) ++ B := by
        have hassoc : ((a :: A') ++ pat) ++ B = (a :: A') ++ (pat ++ B) :=
          List.append_assoc _ _ _
        rw [hassoc]
        exact hp
      exact hA 0 (by simp) (by simpa using prefix_of_append_of_le hp2 hle)
    have hstep : (a :: A') ++ (pat ++ B) = a :: (A' ++ (pat ++ B)) := rfl
    rw [hstep]
    unfold replaceFirst
    rw [if_neg (by
      intro hb
      exact hnp (by rw [hstep]; exact List.isPrefixOf_iff_prefix.mp hb))]
    have htail := ih B hne (fun i hi => by
      have := hA (i + 1) (by simp; omega)
      simpa using this)
    rw [htail]
    rfl

/-! ### Concrete pieces of the rewritten demo page -/

/-- The og:image pattern: one occurrence of this string per rendered
og:image meta tag. -/
def ogPat : List Char := "<meta property=\"og:image\"".toList

theorem ogPat_ne : ogPat ≠ [] := by decide

theorem ogPat_qsuf : ∀ k, k < ogPat.length → '"' ∈ ogPat.drop k := by decide

/-- The part of the cleaned demo page before `</head>`. -/
def aConc : List Char :=
  "<!doctype html><html><head><meta charset=\"utf-8\" />".toList

/-- The part of the cleaned demo page after `</head>`. -/
def bConc : List Char :=
  "<body><div id=\"root\"></div></body></html>".toList

set_option maxRecDepth 4000 in
theorem stripAll_demoPage : stripAll demoPage = aConc ++ (headClose ++ bConc) := by
  decide

/-! ### The grouped decomposition of the rewritten page -/

def c1Seg : List Char := aConc ++ nlTitle
def c2Seg : List Char := titleCloseNl ++ ogtOpen
def c3Seg : List Char := clq ++ nl6 ++ ogdOpen ++ descHead
def c4Seg : List Char := descTail ++ clq ++ nl6 ++ ogOpen
def c5Seg : List Char := clq ++ widthsCard ++ twtOpen
def c6Seg : List Char := clq ++ nl6 ++ twdOpen ++ descHead
def c7Seg : List Char := descTail ++ clq ++ nl6 ++ twiOpen
def c8Seg : List Char := clq ++ tagsTail ++ headClose ++ bConc

/-- The middleware output on the demo page, decomposed into the concrete
inter-slot segments and the inserted safe title / URL values. -/
theorem middleware_grouped (caption : Option (List Char)) (url : List Char) :
    middlewareRewrite caption url demoPage =
      c1Seg ++ (safeTitle caption ++ (c2Seg ++ (safeTitle caption ++
        (c3Seg ++ (safeTitle caption ++ (c4Seg ++ (url ++
        (c5Seg ++ (safeTitle caption ++ (c6Seg ++ (safeTitle caption ++
        (c7Seg ++ (url ++ c8Seg))))))))))))) := by
  unfold middlewareRewrite
  rw [stripAll_demoPage]
  rw [replaceFirst_append headClose _ aConc bConc (by decide) (by decide)]
  simp only [newMetaTags, descriptionOf, c1Seg, c2Seg, c3Seg, c4Seg, c5Seg,
    c6Seg, c7Seg, c8Seg, List.append_assoc]

set_option maxHeartbeats 2000000 in
set_option maxRecDepth 8000 in
/-- Exactly one og:image meta-tag opener occurs in the rewritten page, as
long as the inserted title and URL are nonempty and quote-free. -/
theorem countOccur_rewritten (T U : List Char) (hTne : T ≠ []) (hTq : '"' ∉ T)
    (hUne : U ≠ []) (hUq : '"' ∉ U) :
    countOccur ogPat
      (c1Seg ++ (T ++ (c2Seg ++ (T ++ (c3Seg ++ (T ++ (c4Seg ++ (U ++
        (c5Seg ++ (T ++ (c6Seg ++ (T ++ (c7Seg ++ (U ++ c8Seg)))))))))))))) = 1 := by
  have m1 := no_occ_through_sym ogPat T c2Seg c1Seg
    (T ++ (c3Seg ++ (T ++ (c4Seg ++ (U ++ (c5Seg ++ (T ++ (c6Seg ++
      (T ++ (c7Seg ++ (U ++ c8Seg)))))))))))
    ogPat_ne hTne hTq ogPat_qsuf (by decide)
  have m2 := no_occ_through_sym ogPat T c3Seg c2Seg
    (T ++ (c4Seg ++ (U ++ (c5Seg ++ (T ++ (c6Seg ++ (T ++ (c7Seg ++
      (U ++ c8Seg)))))))))
    ogPat_ne hTne hTq ogPat_qsuf (by decide)
  have m3 := no_occ_through_sym ogPat T c4Seg c3Seg
    (U ++ (c5Seg ++ (T ++ (c6Seg ++ (T ++ (c7Seg ++ (U ++ c8Seg)))))))
    ogPat_ne hTne hTq ogPat_qsuf (by decide)
  have m4 := no_occ_through_sym ogPat U c5Seg c4Seg
    (T ++ (c6Seg ++ (T ++ (c7Seg ++ (U ++ c8Seg)))))
    ogPat_ne hUne hUq ogPat_qsuf (by decide)
  have m5 := no_occ_through_sym ogPat T c6Seg c5Seg
    (T ++ (c7Seg ++ (U ++ c8Seg)))
    ogPat_ne hTne hTq ogPat_qsuf (by decide)
  have m6 := no_occ_through_sym ogPat T c7Seg c6Seg
    (U ++ c8Seg)
    ogPat_ne hTne hTq ogPat_qsuf (by decide)
  have m7 := no_occ_through_sym ogPat U c8Seg c7Seg []
    ogPat_ne hUne hUq ogPat_qsuf (by decide)
  rw [countOccur_append ogPat c1Seg _ ogPat_ne (fun i hi hlt => m1.2 i hi hlt)]
  rw [countOccur_left_none ogPat T _ ogPat_ne m1.1]
  rw [countOccur_append ogPat c2Seg _ ogPat_ne (fun i hi hlt => m2.2 i hi hlt)]
  rw [countOccur_left_none ogPat T _ ogPat_ne m2.1]
  rw [countOccur_append ogPat c3Seg _ ogPat_ne (fun i hi hlt => m3.2 i hi hlt)]
  rw [countOccur_left_none ogPat T _ ogPat_ne m3.1]
  rw [countOccur_append ogPat c4Seg _ ogPat_ne (fun i hi hlt => m4.2 i hi hlt)]
  rw [countOccur_left_none ogPat U _ ogPat_ne m4.1]
  rw [countOccur_append ogPat c5Seg _ ogPat_ne (fun i hi hlt => m5.2 i hi hlt)]
  rw [countOccur_left_none ogPat T _ ogPat_ne m5.1]
  rw [countOccur_append ogPat c6Seg _ ogPat_ne (fun i hi hlt => m6.2 i hi hlt)]
  rw [countOccur_left_none ogPat T _ ogPat_ne m6.1]
  rw [countOccur_append ogPat c7Seg _ ogPat_ne
    (fun i hi hlt hp => m7.2 i hi hlt (by simpa using hp))]
  rw [countOccur_left_none ogPat U _ ogPat_ne
    (fun i hi hp => m7.1 i hi (by simpa using hp))]
  decide

/-! ### Claim theorems for the social-preview middleware -/

theorem safeTitle_no_quote (caption : Option (List Char)) :
    '"' ∉ safeTitle caption := fun h =>
  escapeQuotes_no_quote _ (List.mem_of_mem_take h)

theorem jsOrDefaultCaption_some {caption : List Char} (h : caption ≠ []) :
    jsOrDefaultCaption (some caption) = caption := by
  unfold jsOrDefaultCaption
  simp [h]

theorem safeTitle_ne_nil {caption : List Char} (h : caption ≠ []) :
    safeTitle (some caption) ≠ [] := by
  unfold safeTitle
  rw [jsOrDefaultCaption_some h]
  intro h0
  have hl := congrArg List.length h0
  rw [List.length_take] at hl
  simp only [List.length_nil] at hl
  have h1 : escapeQuotes caption = [] := by
    have : (escapeQuotes caption).length = 0 := by omega
    exact List.length_eq_zero.mp this
  exact escapeQuotes_ne_nil h h1

theorem safeTitle_of_short {caption : List Char} (hne : caption ≠ [])
    (hlen : (escapeQuotes caption).length ≤ 50) :
    safeTitle (some caption) = escapeQuotes caption := by
  unfold safeTitle
  rw [jsOrDefaultCaption_some hne]
  exact List.take_of_length_le hlen

set_option maxHeartbeats 1000000 in
set_option maxRecDepth 8000 in
/-- C9 as amended: for a stored row whose caption contains a double quote
and whose escaped caption fits the 50-character title budget, and whose
image URL is nonempty and quote-free, the middleware output on the demo
page contains `&quot;` in place of the embedded quote, contains exactly
one og:image meta-tag opener, and that tag carries the stored URL as its
content. -/
theorem middleware_social_preview (caption url : List Char)
    (hq : '"' ∈ caption)
    (hlen : (escapeQuotes caption).length ≤ 50)
    (hu : '"' ∉ url) (hune : url ≠ []) :
    "&quot;".toList <:+: middlewareRewrite (some caption) url demoPage ∧
    countOccur ogPat (middlewareRewrite (some caption) url demoPage) = 1 ∧
    (ogOpen ++ (url ++ clq)) <:+:
      middlewareRewrite (some caption) url demoPage := by
  have hcne : caption ≠ [] := by
    intro h
    rw [h] at hq
    simp at hq
  have hTne := safeTitle_ne_nil hcne
  have hTq := safeTitle_no_quote (some caption)
  refine ⟨?_, ?_, ?_⟩
  · have h1 : "&quot;".toList <:+: safeTitle (some caption) := by
      rw [safeTitle_of_short hcne hlen]
      exact quot_entity_infix hq
    have h2 : safeTitle (some caption) <:+:
        middlewareRewrite (some caption) url demoPage := by
      refine ⟨c1Seg, c2Seg ++ (safeTitle (some caption) ++ (c3Seg ++
        (safeTitle (some caption) ++ (c4Seg ++ (url ++ (c5Seg ++
        (safeTitle (some caption) ++ (c6Seg ++ (safeTitle (some caption) ++
        (c7Seg ++ (url ++ c8Seg))))))))))), ?_⟩
      rw [middleware_grouped]
      simp [List.append_assoc]
    exact h1.trans h2
  · rw [middleware_grouped]
    exact countOccur_rewritten _ _ hTne hTq hune hu
  · refine ⟨c1Seg ++ (safeTitle (some caption) ++ (c2Seg ++
      (safeTitle (some caption) ++ (c3Seg ++ (safeTitle (some caption) ++
      (descTail ++ (clq ++ nl6))))))),
      widthsCard ++ (twtOpen ++ (safeTitle (some caption) ++ (c6Seg ++
      (safeTitle (some caption) ++ (c7Seg ++ (url ++ c8Seg)))))), ?_⟩
    rw [middleware_grouped]
    simp only [c1Seg, c2Seg, c3Seg, c4Seg, c5Seg, c6Seg, c7Seg, c8Seg,
      List.append_assoc]

/-- Closed witness for `middleware_social_preview`, at the stored row of
the specification example: caption `A"B` and URL `https://x/y.png`. -/
theorem middleware_social_preview_witness :
    "&quot;".toList <:+:
      middlewareRewrite (some "A\"B".toList) "https://x/y.png".toList demoPage ∧
    countOccur ogPat
      (middlewareRewrite (some "A\"B".toList) "https://x/y.png".toList
        demoPage) = 1 ∧
    (ogOpen ++ ("https://x/y.png".toList ++ clq)) <:+:
      middlewareRewrite (some "A\"B".toList) "https://x/y.png".toList
        demoPage :=
  middleware_social_preview "A\"B".toList "https://x/y.png".toList
    (by decide) (by decide) (by decide) (by decide)

/-- A caption whose escaped form exceeds the 50-character title budget:
fifty `a`s followed by a quoted `b`. -/
def longCap : List Char := "aaaaaaaaaaaaaaaaaaaaaaaaaaaaaaaaaaaaaaaaaaaaaaaaaa\"b".toList

set_option maxRecDepth 4000 in
set_option maxHeartbeats 2000000 in
/-- Counterexample to C9 as stated: this stored row has a caption
containing a double quote, yet the middleware output contains no
`&quot;` at all — the escape is cut away because truncation to 50
characters happens after the replacement (the output does not even
contain an ampersand). -/
theorem middleware_longcaption_counterexample :
    '"' ∈ longCap ∧
    ¬ ("&quot;".toList <:+:
      middlewareRewrite (some longCap) "https://x/y.png".toList demoPage) := by
  constructor
  · decide
  · intro hinf
    have hamp : '&' ∈
        middlewareRewrite (some longCap) "https://x/y.png".toList demoPage := by
      obtain ⟨u, v, huv⟩ := hinf
      rw [← huv]
      simp
    rw [middleware_grouped] at hamp
    simp only [List.mem_append] at hamp
    rcases hamp with h | h | h | h | h | h | h | h | h | h | h | h | h | h | h <;>
      revert h <;> decide

/-- The 46-`a` caption whose escaped quote entity straddles the
50-character boundary. -/
def stradCap : List Char := "aaaaaaaaaaaaaaaaaaaaaaaaaaaaaaaaaaaaaaaaaaaaaa\"bc".toList

/-- The resulting title: the entity is cut mid-way, leaving `&quo`. -/
def stradTitle : List Char := "aaaaaaaaaaaaaaaaaaaaaaaaaaaaaaaaaaaaaaaaaaaaaa&quo".toList

set_option maxHeartbeats 1000000 in
set_option maxRecDepth 8000 in
/-- C10: the middleware derives the page title by escaping quotes first
and truncating to 50 characters afterwards: the safe title never exceeds
50 characters, the emitted title, og:title and twitter:title tags carry
it verbatim, and an escaped quote straddling the boundary is cut
mid-entity. -/
theorem middleware_title_truncation (caption : Option (List Char))
    (url : List Char) :
    (safeTitle caption).length ≤ 50 ∧
    ("<title>".toList ++ (safeTitle caption ++ "</title>".toList)) <:+:
      middlewareRewrite caption url demoPage ∧
    (ogtOpen ++ (safeTitle caption ++ clq)) <:+:
      middlewareRewrite caption url demoPage ∧
    (twtOpen ++ (safeTitle caption ++ clq)) <:+:
      middlewareRewrite caption url demoPage ∧
    safeTitle (some stradCap) = stradTitle ∧
    ¬ ("&quot;".toList <:+: safeTitle (some stradCap)) := by
  have h1 : nlTitle = nl6 ++ "<title>".toList := by decide
  have h2 : titleCloseNl = "</title>".toList ++ nl6 := by decide
  refine ⟨?_, ?_, ?_, ?_, ?_, ?_⟩
  · unfold safeTitle
    rw [List.length_take]
    omega
  · refine ⟨aConc ++ nl6, nl6 ++ (ogtOpen ++ (safeTitle caption ++ (c3Seg ++
      (safeTitle caption ++ (c4Seg ++ (url ++ (c5Seg ++ (safeTitle caption ++
      (c6Seg ++ (safeTitle caption ++ (c7Seg ++ (url ++ c8Seg)))))))))))), ?_⟩
    rw [middleware_grouped]
    simp only [c1Seg, c2Seg, c3Seg, c4Seg, c5Seg, c6Seg, c7Seg, c8Seg,
      h1, h2, List.append_assoc]
  · refine ⟨aConc ++ (nlTitle ++ (safeTitle caption ++ titleCloseNl)),
      nl6 ++ (ogdOpen ++ (descHead ++ (safeTitle caption ++ (c4Seg ++
      (url ++ (c5Seg ++ (safeTitle caption ++ (c6Seg ++ (safeTitle caption ++
      (c7Seg ++ (url ++ c8Seg))))))))))), ?_⟩
    rw [middleware_grouped]
    simp only [c1Seg, c2Seg, c3Seg, c4Seg, c5Seg, c6Seg, c7Seg, c8Seg,
      List.append_assoc]
  · refine ⟨c1Seg ++ (safeTitle caption ++ (c2Seg ++ (safeTitle caption ++
      (c3Seg ++ (safeTitle caption ++ (c4Seg ++ (url ++
      (clq ++ widthsCard)))))))),
      nl6 ++ (twdOpen ++ (descHead ++ (safeTitle caption ++ (c7Seg ++
      (url ++ c8Seg))))), ?_⟩
    rw [middleware_grouped]
    simp only [c1Seg, c2Seg, c3Seg, c4Seg, c5Seg, c6Seg, c7Seg, c8Seg,
      List.append_assoc]
  · decide
  · decide

end StoryBoarder
